import Mathlib

/-!
Verification of the Ehlit semantic-analysis core (ehlit/parser/ast.py and
ehlit/parser/error.py), as a shallow embedding in Lean.  Each Python method
relevant to the checked claims is translated into an executable Lean function
over explicit state; mutation becomes state passing, exceptions become
`Except`, and the failure-collection side channel becomes an explicit list of
diagnostics.
-/

namespace Ehlit

/-! ## Type model

Mirrors the `Type` hierarchy of ast.py: `BuiltinType` (identified by its
name string), `ArrayType` and `ReferenceType` (each wrapping a child type),
`FunctionType` and the struct/union `ContainerStructure` types (which keep
the `Type` base-class behaviour for `any_memory_offset`).
-/

inductive TypeM : Type where
  | builtin (name : String)
  | arrayType (child : TypeM)
  | referenceType (child : TypeM)
  | functionType (id : Nat)
  | structType (name : String)
deriving DecidableEq, Repr

/-- Translation of the `any_memory_offset` properties of ast.py:
the `Type` base class returns `1`; `BuiltinType` returns `0` for `@str` and
`1` otherwise; `ArrayType` and `ReferenceType` return
`self.child.any_memory_offset`. -/
def TypeM.any_memory_offset : TypeM → Nat
  | .builtin name => if name = "@str" then 0 else 1
  | .arrayType child => child.any_memory_offset
  | .referenceType child => child.any_memory_offset
  | .functionType _ => 1
  | .structType _ => 1

/-- Translation of `Array.any_memory_offset` (the `Array` symbol, a
`SymbolContainer`, not the `ArrayType` type): it returns the constant `0`,
ignoring the child symbol. The child is kept as an argument so that this
property and `ArrayType.any_memory_offset` can be compared as functions of
the element type. -/
def ArraySym.any_memory_offset (_child : TypeM) : Nat := 0

end Ehlit

namespace Ehlit.FC

/-! ## FunctionCall.build dispatch to Cast (claim C4)

`FunctionCall.build` first builds its symbol; if `self.sym.is_type`, it
creates `Cast(self.pos, self.sym, self.args)`, builds it with the original
parent and returns it, so the resulting node is a `Cast`, not a
`FunctionCall`.  `Cast.build` reports `cast requires a value` when no
argument was given and `too many values for cast expression` when there is
more than one; with exactly one argument it builds it without diagnostic.
Arguments are abstract tokens (`Nat`); diagnostics carry the position passed
to `self.error`.
-/

/-- Result of `FunctionCall.build`: either the node was rewritten into a
`Cast` (symbol resolved to a type) or it remains a call, whose further
argument processing is modelled separately (see `Ehlit.VL`). -/
inductive BuildResult : Type where
  | castNode (pos : Nat) (symId : Nat) (args : List Nat) (diags : List (Nat × String))
  | callNode (symId : Nat) (args : List Nat)
deriving DecidableEq, Repr

/-- Translation of the diagnostics emitted by `Cast.build`: fewer than one
argument reports `cast requires a value`, more than one reports
`too many values for cast expression`, exactly one reports nothing. -/
def Cast.build_diags (pos : Nat) (args : List Nat) : List (Nat × String) :=
  if args.length < 1 then [(pos, "cast requires a value")]
  else if args.length > 1 then [(pos, "too many values for cast expression")]
  else []

/-- Translation of the head of `FunctionCall.build`: when the built symbol
`is_type`, the node is rewritten into a `Cast` of the same arguments, built
immediately (emitting the `Cast.build` diagnostics); otherwise the node
stays a call and continues with argument processing. -/
def FunctionCall.build_model (pos : Nat) (symId : Nat) (symIsType : Bool)
    (args : List Nat) : BuildResult :=
  if symIsType then
    .castNode pos symId args (Cast.build_diags pos args)
  else
    .callNode symId args

end Ehlit.FC

namespace Ehlit.PV

/-! ## Declaration lookup and private-symbol gating (claim C2)

Models the lookup pair contract `(resolved-or-null, error-or-null)` of
ast.py and the functions on the lookup paths around an `Import` node:
`DeclarationBase.get_declaration`, `GenericExternInclusion.get_declaration`,
`Scope.find_declaration` / `UnorderedScope.find_declaration` as specialised
by `Import.find_declaration`, and `AST.find_declaration`.
-/

/-- A built declaration as far as lookup is concerned: its name, its
qualifier bitset (`PRIVATE = 32`), and whether it is an instance of the
`Declaration` class (the `isinstance(decl, Declaration)` test in
`Import.find_declaration`). -/
structure DeclM : Type where
  name : String
  qualifiers : Nat
  isDeclarationClass : Bool
deriving DecidableEq, Repr

/-- Translation of `Qualifier.is_private`: bit 32 of the qualifier bitset. -/
def Qualifier.is_private (q : Nat) : Bool := q &&& 32 ≠ 0

/-- Result pair of a lookup, `(resolved-or-null, error-string-or-null)`. -/
abbrev Lookup : Type := Option DeclM × Option String

/-- Translation of `DeclarationBase.get_declaration`: a hit iff the name
matches. -/
def DeclarationBase.get_declaration (d : DeclM) (sym : String) : Lookup :=
  if d.name = sym then (some d, none) else (none, none)

/-- Shared loop shape of the lookup methods of ast.py: ask each element in
turn and return the first answer whose declaration or error is non-null. -/
def firstLookup (f : α → Lookup) : List α → Lookup
  | [] => (none, none)
  | x :: xs =>
    match f x with
    | (none, none) => firstLookup f xs
    | r => r

/-- Translation of `GenericExternInclusion.get_declaration`: search the
imported symbols `syms`; no private filter is applied on this path. -/
def GenericExternInclusion.get_declaration (syms : List DeclM) (sym : String) : Lookup :=
  firstLookup (fun d => DeclarationBase.get_declaration d sym) syms

/-- Translation of `UnorderedScope.find_declaration` as it runs on an
`Import` node: search `scope_contents` (the imported `syms`), then the
`declarations` registered in the scope, then delegate to the parent
(supplied as `parentRes`). -/
def UnorderedScope.find_declaration (syms decls : List DeclM) (parentRes : Lookup)
    (sym : String) : Lookup :=
  match firstLookup (fun d => DeclarationBase.get_declaration d sym) syms with
  | (none, none) =>
    match firstLookup (fun d => DeclarationBase.get_declaration d sym) decls with
    | (none, none) => parentRes
    | r => r
  | r => r

/-- Translation of `Import.find_declaration`: run the inherited lookup, and
when the result is a `Declaration` qualified private, shadow it with the
`accessing to private symbol` error.  This method serves lookups that come
from below the `Import` node, i.e. from the imported module's own subtree. -/
def Import.find_declaration (syms decls : List DeclM) (parentRes : Lookup)
    (sym : String) : Lookup :=
  match UnorderedScope.find_declaration syms decls parentRes sym with
  | (some d, err) =>
    if d.isDeclarationClass ∧ Qualifier.is_private d.qualifiers then
      (none, some ("accessing to private symbol `" ++ sym ++ "`"))
    else (some d, err)
  | r => r

/-- A top-level node of the root AST as far as lookup is concerned: a plain
declaration, or an `Import` node exposing the symbols it imported. -/
inductive TopNode : Type where
  | decl (d : DeclM)
  | imp (syms : List DeclM)
deriving DecidableEq, Repr

/-- Downward lookup into a top-level node: declarations answer by name;
`Import` nodes answer through `GenericExternInclusion.get_declaration`. -/
def TopNode.get_declaration (n : TopNode) (sym : String) : Lookup :=
  match n with
  | .decl d => DeclarationBase.get_declaration d sym
  | .imp syms => GenericExternInclusion.get_declaration syms sym

/-- Translation of `AST.find_declaration`: ask `get_declaration` of every
top-level node, then fall back to the interned builtin declarations.  This
is the path taken by every lookup originating in the root module. -/
def AST.find_declaration (nodes : List TopNode) (builtins : List DeclM)
    (sym : String) : Lookup :=
  match firstLookup (fun n => TopNode.get_declaration n sym) nodes with
  | (none, none) => firstLookup (fun d => DeclarationBase.get_declaration d sym) builtins
  | r => r

end Ehlit.PV

namespace Ehlit.VL

/-! ## Variadic lowering and FlowScope statement insertion (claims C1, C8)

Models `FunctionCall._auto_cast_args` (the variadic tail materialisation),
`FlowScope.do_before` (statement insertion) and the `FlowScope.build`
loop over its body.  Expression nodes are modelled structurally where the
lowering constructs them (`Number`, `CompoundIdentifier`,
`InitializationList`, `Expression`) and as opaque atoms elsewhere; an
argument auto-cast mutates only the internals of the argument value, so it
leaves the actuals list itself untouched and is not modelled further.
-/

/-- A value node as the variadic lowering sees it: the constructors built
by `_auto_cast_args`, plus an opaque atom standing for any already-built
argument expression. -/
inductive ValNode : Type where
  | number (num : String)
  | compoundIdentifier (names : List String)
  | initializationList (contents : List ValNode)
  | expression (contents : List ValNode) (parenthesised : Bool)
  | atom (id : Nat)

mutual

/-- Decidable equality for `ValNode`, written by hand because the nested
occurrence of `List ValNode` defeats the deriving handler. -/
def ValNode.decEq : (a b : ValNode) → Decidable (a = b)
  | .number x, .number y =>
    if h : x = y then isTrue (by rw [h])
    else isFalse (by intro he; injection he; contradiction)
  | .compoundIdentifier x, .compoundIdentifier y =>
    if h : x = y then isTrue (by rw [h])
    else isFalse (by intro he; injection he; contradiction)
  | .initializationList x, .initializationList y =>
    match ValNode.decEqList x y with
    | isTrue h => isTrue (by rw [h])
    | isFalse h => isFalse (by intro he; injection he; contradiction)
  | .expression x px, .expression y py =>
    match ValNode.decEqList x y, instDecidableEqBool px py with
    | isTrue h1, isTrue h2 => isTrue (by rw [h1, h2])
    | isFalse h1, _ => isFalse (by intro he; injection he; contradiction)
    | _, isFalse h2 => isFalse (by intro he; injection he; contradiction)
  | .atom x, .atom y =>
    if h : x = y then isTrue (by rw [h])
    else isFalse (by intro he; injection he; contradiction)
  | .number _, .compoundIdentifier _ => isFalse (fun h => nomatch h)
  | .number _, .initializationList _ => isFalse (fun h => nomatch h)
  | .number _, .expression _ _ => isFalse (fun h => nomatch h)
  | .number _, .atom _ => isFalse (fun h => nomatch h)
  | .compoundIdentifier _, .number _ => isFalse (fun h => nomatch h)
  | .compoundIdentifier _, .initializationList _ => isFalse (fun h => nomatch h)
  | .compoundIdentifier _, .expression _ _ => isFalse (fun h => nomatch h)
  | .compoundIdentifier _, .atom _ => isFalse (fun h => nomatch h)
  | .initializationList _, .number _ => isFalse (fun h => nomatch h)
  | .initializationList _, .compoundIdentifier _ => isFalse (fun h => nomatch h)
  | .initializationList _, .expression _ _ => isFalse (fun h => nomatch h)
  | .initializationList _, .atom _ => isFalse (fun h => nomatch h)
  | .expression _ _, .number _ => isFalse (fun h => nomatch h)
  | .expression _ _, .compoundIdentifier _ => isFalse (fun h => nomatch h)
  | .expression _ _, .initializationList _ => isFalse (fun h => nomatch h)
  | .expression _ _, .atom _ => isFalse (fun h => nomatch h)
  | .atom _, .number _ => isFalse (fun h => nomatch h)
  | .atom _, .compoundIdentifier _ => isFalse (fun h => nomatch h)
  | .atom _, .initializationList _ => isFalse (fun h => nomatch h)
  | .atom _, .expression _ _ => isFalse (fun h => nomatch h)

/-- Decidable equality for lists of `ValNode`. -/
def ValNode.decEqList : (a b : List ValNode) → Decidable (a = b)
  | [], [] => isTrue rfl
  | [], _ :: _ => isFalse (fun h => nomatch h)
  | _ :: _, [] => isFalse (fun h => nomatch h)
  | x :: xs, y :: ys =>
    match ValNode.decEq x y, ValNode.decEqList xs ys with
    | isTrue h1, isTrue h2 => isTrue (by rw [h1, h2])
    | isFalse h1, _ => isFalse (by intro he; injection he; contradiction)
    | _, isFalse h2 => isFalse (by intro he; injection he; contradiction)

end

instance : DecidableEq ValNode := ValNode.decEq

/-- The `VariableDeclaration` built by the lowering:
`VariableDeclaration(Array(typ.variadic_type, Number(str(len(vargs)))),
Identifier(0, vargs_name), Assignment(Expression([InitializationList(vargs)],
False)))`.  The `Array` type symbol keeps its child as an opaque symbol id
and its length expression. -/
structure VariableDeclarationM : Type where
  arrayChild : Nat
  arrayLength : Option ValNode
  name : String
  assign : Option ValNode
deriving DecidableEq

/-- A statement of a flow scope body: an opaque pre-existing statement, or
the variable declaration statement injected by the variadic lowering. -/
inductive Stmt : Type where
  | exprStmt (id : Nat)
  | varDecl (d : VariableDeclarationM)
deriving DecidableEq

/-- Declaration kind tag, `DeclarationType` in ast.py. -/
inductive DeclarationType : Type where
  | EHLIT
  | C
deriving DecidableEq, Repr

/-- The part of a `FunctionType` the call-argument processing consults:
the number of declared fixed parameters (`len(typ.args)`), the variadic
flag, and the variadic element type symbol (opaque id). -/
structure FunctionTypeM : Type where
  fixedArity : Nat
  is_variadic : Bool
  variadic_type : Nat
deriving DecidableEq, Repr

/-- Result of `_auto_cast_args`: the updated actuals list and the statement
handed to `do_before`, if any. -/
structure ACAResult : Type where
  args : List ValNode
  inserted : Option Stmt
deriving DecidableEq

/-- Translation of `FunctionCall._auto_cast_args`.  The cast loop leaves
`i = min(len(self.args), len(typ.args))` and does not change the actuals
list.  When the callee type is variadic and the declaration kind is EHLIT
(native), the tail `self.args[i:]` is snapshotted, the actuals are truncated
to `self.args[:i]`, a statement declaring an array of the variadic element
type of length `len(vargs)` initialised from the tail is sent to
`do_before`, and two synthetic actuals are appended: the count and an
identifier naming the generated array.  Otherwise nothing happens. -/
def auto_cast_args (typ : FunctionTypeM) (declType : DeclarationType)
    (args : List ValNode) (genName : String) : ACAResult :=
  let i := min args.length typ.fixedArity
  if typ.is_variadic = true ∧ declType = DeclarationType.EHLIT then
    let vargs := args.drop i
    let fixed := args.take i
    let stmt : Stmt := .varDecl
      { arrayChild := typ.variadic_type
        arrayLength := some (.number (toString vargs.length))
        name := genName
        assign := some (.expression [.initializationList vargs] false) }
    { args := fixed
        ++ [.expression [.number (toString vargs.length)] false,
            .expression [.compoundIdentifier [genName]] false]
      inserted := some stmt }
  else
    { args := args, inserted := none }

/-- The mutable state of `FlowScope.build`: the body and the current
statement index `self._counter`. -/
structure FlowState : Type where
  body : List Stmt
  counter : Nat
deriving DecidableEq

/-- Translation of `FlowScope.do_before` for a `Statement` action: insert
`d` at `self.body.index(before)` and increment the build counter
`self._counter`.  The `before` argument is the direct child of the flow
scope on the propagation chain of the request, i.e. the statement currently
being built. -/
def FlowScope.do_before_model (s : FlowState) (d : Stmt) (before : Stmt) : FlowState :=
  ⟨s.body.insertIdx (s.body.indexOf before) d, s.counter + 1⟩

/-- Repeated application of `FlowScope.do_before` for the insertions a
statement requests while it is being built. -/
def FlowScope.insertAll (cur : Stmt) : List Stmt → FlowState → FlowState
  | [], s => s
  | d :: ds, s => FlowScope.insertAll cur ds (FlowScope.do_before_model s d cur)

/-- One iteration of the `FlowScope.build` loop.  The statement at the
current index is built; building it may call `do_before` (the insertions it
requests are given by the build effect `eff`, together with the built
statement that replaces the current one).  The rebinding
`self.body[self._counter] = self.body[self._counter].build(self)` stores
through the counter value reached after the insertions, then the counter
advances past the statement just built. -/
def FlowScope.step (eff : Stmt → List Stmt × Stmt) (s : FlowState) : FlowState :=
  match s.body[s.counter]? with
  | none => ⟨s.body, s.counter + 1⟩
  | some cur =>
    let s1 := FlowScope.insertAll cur (eff cur).1 s
    ⟨s1.body.set s1.counter (eff cur).2, s1.counter + 1⟩

/-- Translation of the `FlowScope.build` loop: while the counter is below
the body length, build the current statement and advance. -/
def FlowScope.build_model (eff : Stmt → List Stmt × Stmt) (s : FlowState) : FlowState :=
  if h : s.counter < s.body.length then
    FlowScope.build_model eff (FlowScope.step eff s)
  else s
termination_by s.body.length - s.counter
decreasing_by
  have key : ∀ (cur : Stmt) (l : List Stmt) (t : FlowState),
      (FlowScope.insertAll cur l t).body.length = t.body.length + l.length ∧
      (FlowScope.insertAll cur l t).counter = t.counter + l.length := by
    intro cur l
    induction l with
    | nil => intro t; simp [FlowScope.insertAll]
    | cons d ds ih =>
      intro t
      have hb : (FlowScope.do_before_model t d cur).body.length = t.body.length + 1 :=
        List.length_insertIdx _ _ List.indexOf_le_length
      have hc : (FlowScope.do_before_model t d cur).counter = t.counter + 1 := rfl
      obtain ⟨h3b, h3c⟩ := ih (FlowScope.do_before_model t d cur)
      simp only [FlowScope.insertAll]
      constructor
      · rw [h3b, hb, List.length_cons]; omega
      · rw [h3c, hc, List.length_cons]; omega
  have hstep : ∀ t : FlowState, t.counter < t.body.length →
      (FlowScope.step eff t).body.length - (FlowScope.step eff t).counter
        < t.body.length - t.counter := by
    intro t ht
    unfold FlowScope.step
    cases hg : t.body[t.counter]? with
    | none => simp only [hg]; omega
    | some cur =>
      simp only [hg]
      obtain ⟨ha, hb⟩ := key cur (eff cur).1 t
      rw [List.length_set, ha, hb]
      omega
  exact hstep s h

end Ehlit.VL

namespace Ehlit.ER

/-! ## Failure accumulation and the aggregate diagnostic (claim C3)

Models `Failure` and `ParseError` from ehlit/parser/error.py and the tail
of `AST.build_ast` from ast.py: every `fail` call appends a `Failure` to
`self.failures`; after the pass over all top-level nodes, a single
`ParseError` carrying all accumulated failures is raised iff the list is
non-empty.  The parser collaborator is abstracted as a
position-to-line/column oracle.
-/

/-- Failure severities, `ParseError.Severity` (Warning = 1, Error = 2,
Fatal = 3). -/
inductive Severity : Type where
  | Warning
  | Error
  | Fatal
deriving DecidableEq, Repr

/-- Numeric value of a severity as used by the `max_level` comparison. -/
def Severity.toInt : Severity → Int
  | .Warning => 1
  | .Error => 2
  | .Fatal => 3

/-- Translation of `Failure`: severity, position, message, file name, and
the line/column pair filled in by `ParseError.__init__`. -/
structure FailureM : Type where
  severity : Severity
  pos : Nat
  msg : String
  file : String
  linecol : Option (Nat × Nat) := none
deriving DecidableEq, Repr

/-- Translation of `Failure.__str__`: `file:line:col: message` once the
line/column pair has been filled in (the source asserts it is set). -/
def FailureM.str (f : FailureM) : Option String :=
  match f.linecol with
  | some lc =>
    some (f.file ++ ":" ++ toString lc.1 ++ ":" ++ toString lc.2 ++ ": " ++ f.msg)
  | none => none

/-- Translation of `ParseError`: the failure list plus the counters
computed by `__init__`. -/
structure ParseErrorM : Type where
  failures : List FailureM
  max_level : Int
  errors : Nat
  warnings : Nat
deriving DecidableEq, Repr

/-- Translation of `ParseError.__init__` in the case where a parser is
available (as in `AST.build_ast`): every failure whose severity is Warning
counts into `warnings`, every other failure (Error or Fatal) into `errors`;
`max_level` is the running maximum of the severities starting from `-1`;
each failure gets its `linecol` computed from its position through the
parser oracle `ptl`. -/
def ParseError.mkModel (failures : List FailureM) (ptl : Nat → Nat × Nat) :
    ParseErrorM where
  failures := failures.map (fun f => { f with linecol := some (ptl f.pos) })
  max_level := failures.foldl (fun m f => max m f.severity.toInt) (-1)
  errors := (failures.filter (fun f => ¬ f.severity = Severity.Warning)).length
  warnings := (failures.filter (fun f => f.severity = Severity.Warning)).length

/-- Translation of the failure handling of `AST.build_ast`: the pass over
the top-level nodes runs to completion, each node contributing the
failures it reported through the `fail` chain (`nodeFailures`, one list per
node, all appended into `self.failures`); afterwards, a single aggregate
`ParseError` is raised iff at least one failure was recorded. -/
def AST.build_ast_model (nodeFailures : List (List FailureM)) (ptl : Nat → Nat × Nat) :
    Except ParseErrorM Unit :=
  let failures := nodeFailures.flatten
  if failures.length ≠ 0 then
    Except.error (ParseError.mkModel failures ptl)
  else Except.ok ()

/-- Modelled from the spec: the command-line driver that catches the
aggregate diagnostic and decides the exit status is not part of the
analysed sources (only the parser package is).  Per the spec, a build with
at least one counted error is unsuccessful and warnings alone are
successful. -/
def buildUnsuccessful (r : Except ParseErrorM Unit) : Bool :=
  match r with
  | .ok _ => false
  | .error e => decide (1 ≤ e.errors)

end Ehlit.ER

namespace Ehlit.IG

/-! ## Import / include re-entry gating (claims C9, C10)

Models the module-level collections `imported` and `included` and the
re-entry guards of `Import.parse` / `Import.import_dir` and
`Include.parse`.  `AST.build_ast` starts with `imported = included = []`,
which rebinds both module-level names to one and the same fresh list
object; the shared list is therefore modelled as a single state value, and
`importedOf` / `includedOf` are the two names under which the code reads
it.  The external parser collaborators are oracles from a path to the
declaration nodes they would produce.
-/

/-- The list object shared by `imported` and `included` after the reset
performed by `AST.build_ast`. -/
def resetState : List String := []

/-- The collection read under the name `imported` (same object as
`includedOf`). -/
def importedOf (st : List String) : List String := st

/-- The collection read under the name `included` (same object as
`importedOf`). -/
def includedOf (st : List String) : List String := st

/-- Outcome of resolving one external file: the updated shared list, the
paths actually handed to the external parser during the call, and the
declaration nodes obtained. -/
structure ExtParse : Type where
  state : List String
  parsed : List String
  decls : List Nat
deriving DecidableEq, Repr

/-- Translation of the re-entry guard of `Import.parse` (and
`Import.import_dir`) for one resolved path: a path already present in the
shared list makes the import return immediately with no nodes; otherwise
the path is appended and the file is parsed through the `source.parse`
collaborator `src`. -/
def Import.parse_model (src : String → List Nat) (st : List String)
    (fullPath : String) : ExtParse :=
  if fullPath ∈ importedOf st then ⟨st, [], []⟩
  else ⟨importedOf st ++ [fullPath], [fullPath], src fullPath⟩

/-- Translation of `Include.parse`: a lib already present in the shared
list makes the include return immediately with no nodes; otherwise the lib
is appended and the header is parsed through the `c_header.parse`
collaborator `hdr`. -/
def Include.parse_model (hdr : String → List Nat) (st : List String)
    (lib : String) : ExtParse :=
  if lib ∈ includedOf st then ⟨st, [], []⟩
  else ⟨includedOf st ++ [lib], [lib], hdr lib⟩

/-- An external-file resolution event during one AST build: a language
module import or a C header include. -/
inductive ExtOp : Type where
  | imp (path' : String)
  | inc (lib : String)
deriving DecidableEq, Repr

/-- The sequence of import/include resolutions performed during one
`build_ast` pass, threading the shared list and collecting every path
handed to an external parser. -/
def runOps (src hdr : String → List Nat) : List ExtOp → List String → List String × List String
  | [], st => (st, [])
  | .imp p :: ops, st =>
    let r := Import.parse_model src st p
    let rest := runOps src hdr ops r.state
    (rest.1, r.parsed ++ rest.2)
  | .inc l :: ops, st =>
    let r := Include.parse_model hdr st l
    let rest := runOps src hdr ops r.state
    (rest.1, r.parsed ++ rest.2)

end Ehlit.IG

namespace Ehlit.CI

/-! ## Compound identifier resolution (claim C7)

Models `CompoundIdentifier.find_children_declarations` and
`Identifier.typ`.  The lookup context is abstracted as two oracles: `find`
for `parent.find_declaration` (first element) and `inner` for
`cur_decl.get_inner_declaration` (subsequent elements).
-/

/-- A resolved declaration as an identifier element records it: either the
virtual `vargs.length` declaration (`VArgsLength`) or an ordinary
declaration carrying the type that `Identifier.typ` would read from it. -/
inductive DeclRef : Type where
  | vargsLength
  | plain (id : Nat) (typ : TypeM)
deriving DecidableEq, Repr

/-- The type read from a resolved declaration (`VArgsLength.typ` is
`@int`; ordinary declarations report their declared type, a type
declaration reporting a duplicate of itself). -/
def DeclRef.typ : DeclRef → TypeM
  | .vargsLength => .builtin "@int"
  | .plain _ t => t

/-- One element of a compound identifier: position, name and the resolved
declaration slot (`None` until resolution). -/
structure IdentM : Type where
  pos : Nat
  name : String
  decl : Option DeclRef := none
deriving DecidableEq, Repr

/-- Translation of `Identifier.typ`: with a null declaration the type
falls back to the builtin `@any`; otherwise it is read from the
declaration. -/
def Identifier.typ (decl : Option DeclRef) : TypeM :=
  match decl with
  | none => .builtin "@any"
  | some d => d.typ

/-- The loop of `find_children_declarations`: walk the elements, resolving
the first through `find` and the rest through `inner` on the previous
declaration; record the result on the element.  On the first null
declaration, synthesise `use of undeclared identifier X` when the error is
also null, report it at the element position and return at once (the
remaining elements are left untouched).  Returns the updated elements, the
reported diagnostics and whether the loop returned early. -/
def fcdAux (find : String → Option DeclRef × Option String)
    (inner : DeclRef → String → Option DeclRef × Option String) :
    Option DeclRef → List IdentM → List IdentM × List (Nat × String) × Bool
  | _, [] => ([], [], false)
  | cur, e :: rest =>
    let r := match cur with
      | none => find e.name
      | some c => inner c e.name
    match r.1 with
    | none =>
      let msg := match r.2 with
        | none => "use of undeclared identifier " ++ e.name
        | some m => m
      ({ e with decl := none } :: rest, [(e.pos, msg)], true)
    | some d =>
      let rec' := fcdAux find inner (some d) rest
      ({ e with decl := some d } :: rec'.1, rec'.2.1, rec'.2.2)

/-- The `isinstance(self.elems[1].decl, VArgsLength)` test of the collapse
condition. -/
def secondIsVargsLength : List IdentM → Bool
  | _ :: e1 :: _ => e1.decl = some DeclRef.vargsLength
  | _ => false

/-- Translation of `CompoundIdentifier.find_children_declarations`: run
the resolution loop; when it completes and there are at least two elements
whose second resolved to the virtual `VArgsLength` declaration, collapse
the chain to the tail with the leading element renamed to the synthetic
`@vargs_len`. -/
def find_children_declarations (find : String → Option DeclRef × Option String)
    (inner : DeclRef → String → Option DeclRef × Option String)
    (elems : List IdentM) : List IdentM × List (Nat × String) :=
  let r := fcdAux find inner none elems
  if r.2.2 = false ∧ 2 ≤ r.1.length ∧ secondIsVargsLength r.1 = true then
    match r.1 with
    | _ :: e1 :: rest => ({ e1 with name := "@vargs_len" } :: rest, r.2.1)
    | l => (l, r.2.1)
  else (r.1, r.2.1)

end Ehlit.CI

namespace Ehlit.ID

/-! ## Re-building already built nodes (claim C6)

Models the build re-entry behaviour of three representative node types:
the `Node` base class (which re-assigns `parent` and `built` and nothing
else), `ContainerStructure.build` (which returns immediately when `built`
is already set), and, through `Ehlit.VL.auto_cast_args`, the re-build of a
statement whose variadic call was already lowered.
-/

/-- The state the `Node` base class `build` touches. -/
structure NodeState : Type where
  pos : Nat
  built : Bool
  parent : Nat
deriving DecidableEq, Repr

/-- Translation of `Node.build`: unconditionally re-assign the parent edge
and set `built`. -/
def Node.build_model (n : NodeState) (parent : Nat) : NodeState :=
  { n with parent := parent, built := true }

/-- The state `ContainerStructure.build` touches: the `built` flag, the
parent edge, whether the structure registered itself in the parent scope
(`parent.declare(self)`), and whether its name symbol and fields have been
built. -/
structure CSState : Type where
  built : Bool
  parent : Nat
  declaredInParent : Bool
  childrenBuilt : Bool
deriving DecidableEq, Repr

/-- Translation of `ContainerStructure.build`: return immediately when the
node is already built; otherwise build, register in the parent scope and
build the name symbol and the fields. -/
def ContainerStructure.build_model (s : CSState) (parent : Nat) : CSState :=
  if s.built then s
  else { built := true, parent := parent, declaredInParent := true, childrenBuilt := true }

end Ehlit.ID


namespace Ehlit

/-! ## Helper lemmas -/

theorem indexOf_of_getElem? {α : Type} [DecidableEq α] :
    ∀ (l : List α) (n : Nat) (a : α), l[n]? = some a → a ∉ l.take n → l.indexOf a = n
  | [], n, a, h, _ => by simp at h
  | x :: xs, 0, a, h, _ => by
    simp only [List.getElem?_cons_zero, Option.some.injEq] at h
    subst h
    exact List.indexOf_cons_self _ _
  | x :: xs, n + 1, a, h, hnot => by
    have hx : x ≠ a := by
      intro he
      exact hnot (by simp [List.take_succ_cons, he])
    rw [List.indexOf_cons_ne _ hx]
    have hrec : xs.indexOf a = n :=
      indexOf_of_getElem? xs n a (by simpa using h)
        (fun hm => hnot (by simp [List.take_succ_cons]; exact Or.inr hm))
    rw [hrec]

theorem insertIdx_eq_take_cons_drop {α : Type} :
    ∀ (n : Nat) (l : List α) (a : α), n ≤ l.length →
      l.insertIdx n a = l.take n ++ a :: l.drop n
  | 0, l, a, _ => by simp
  | n + 1, [], a, h => by simp at h
  | n + 1, x :: xs, a, h => by
    simp only [List.insertIdx_succ_cons, List.take_succ_cons, List.drop_succ_cons,
      List.cons_append, List.cons.injEq, true_and]
    exact insertIdx_eq_take_cons_drop n xs a (by simpa using h)

theorem insert_getElem? {α : Type} :
    ∀ (l : List α) (n : Nat) (x : α), n ≤ l.length →
      (l.take n ++ x :: l.drop n)[n]? = some x ∧
      (l.take n ++ x :: l.drop n)[n + 1]? = l[n]?
  | l, 0, x, _ => by simp
  | [], n + 1, x, h => by simp at h
  | y :: ys, n + 1, x, h => by
    have ih := insert_getElem? ys n x (by simpa using h)
    simp only [List.take_succ_cons, List.drop_succ_cons, List.cons_append,
      List.getElem?_cons_succ]
    exact ih

/-! ## Claim C5 -/

/-- C5: `any_memory_offset` is `1` for every builtin type other than `@str`
and `0` for `@str`; `ArrayType.any_memory_offset` and
`ReferenceType.any_memory_offset` delegate to the child type; the `Array`
symbol returns the constant `0`, so `Array.any_memory_offset` and
`ArrayType.any_memory_offset` are not the same function of the element
type. -/
theorem C5_any_memory_offset :
    (∀ name, name ≠ "@str" → (TypeM.builtin name).any_memory_offset = 1) ∧
    (TypeM.builtin "@str").any_memory_offset = 0 ∧
    (∀ t, (TypeM.arrayType t).any_memory_offset = t.any_memory_offset) ∧
    (∀ t, (TypeM.referenceType t).any_memory_offset = t.any_memory_offset) ∧
    (∀ t, ArraySym.any_memory_offset t = 0) ∧
    ArraySym.any_memory_offset ≠ (fun t => (TypeM.arrayType t).any_memory_offset) := by
  refine ⟨?_, rfl, fun t => rfl, fun t => rfl, fun t => rfl, ?_⟩
  · intro name h
    simp [TypeM.any_memory_offset, h]
  · intro heq
    have h := congrFun heq (TypeM.builtin "@int")
    simp [ArraySym.any_memory_offset, TypeM.any_memory_offset] at h

/-- Witness for C5 at the concrete builtin `@int`. -/
theorem C5_any_memory_offset_witness :
    ("@int" ≠ "@str") ∧ (TypeM.builtin "@int").any_memory_offset = 1 :=
  ⟨by decide, C5_any_memory_offset.1 "@int" (by decide)⟩

/-! ## Claim C4 -/

/-- C4: a `FunctionCall` whose symbol resolves to a type is rewritten by
`build` into a `Cast` node carrying the same argument list; with exactly
one argument the cast has that sole argument and no diagnostic; with zero
arguments the error `cast requires a value` is reported and with more than
one the error `too many values for cast expression` is reported. -/
theorem C4_type_call_rewrites_to_cast (pos symId : Nat) (args : List Nat) :
    (FC.FunctionCall.build_model pos symId true args
      = .castNode pos symId args (FC.Cast.build_diags pos args)) ∧
    (∀ a, args = [a] →
      FC.FunctionCall.build_model pos symId true args = .castNode pos symId [a] []) ∧
    (args = [] →
      FC.FunctionCall.build_model pos symId true args
        = .castNode pos symId [] [(pos, "cast requires a value")]) ∧
    (2 ≤ args.length →
      FC.FunctionCall.build_model pos symId true args
        = .castNode pos symId args [(pos, "too many values for cast expression")]) := by
  refine ⟨rfl, ?_, ?_, ?_⟩
  · intro a h
    subst h
    rfl
  · intro h
    subst h
    rfl
  · intro h
    simp only [FC.FunctionCall.build_model, if_pos rfl, FC.Cast.build_diags]
    have h1 : ¬ args.length < 1 := by omega
    have h2 : 1 < args.length := by omega
    simp [h1, h2]

/-- Witness for C4 at a one-argument call, a zero-argument call and a
two-argument call to a type. -/
theorem C4_type_call_rewrites_to_cast_witness :
    FC.FunctionCall.build_model 0 1 true [5] = .castNode 0 1 [5] [] ∧
    FC.FunctionCall.build_model 0 1 true []
      = .castNode 0 1 [] [(0, "cast requires a value")] ∧
    FC.FunctionCall.build_model 0 1 true [5, 6]
      = .castNode 0 1 [5, 6] [(0, "too many values for cast expression")] :=
  ⟨(C4_type_call_rewrites_to_cast 0 1 [5]).2.1 5 rfl,
   (C4_type_call_rewrites_to_cast 0 1 []).2.2.1 rfl,
   (C4_type_call_rewrites_to_cast 0 1 [5, 6]).2.2.2 (by decide)⟩

/-! ## Claim C2 -/

/-- C2 evaluation at the failing input: module A declares `secret` with the
private qualifier (bitset 32) and is imported by the root module.  The
lookup of `secret` coming from the root module runs through
`AST.find_declaration` and the `get_declaration` side of the `Import`
node, which has no private filter, and resolves to the private declaration
with no error — contradicting the claim.  The `accessing to private
symbol` error of `Import.find_declaration` instead fires for lookups
originating inside the imported module's own subtree (second conjunct),
contradicting the claim's second half as well. -/
theorem C2_private_gating_eval :
    (PV.AST.find_declaration [PV.TopNode.imp [⟨"secret", 32, true⟩]] [] "secret"
      = (some ⟨"secret", 32, true⟩, none)) ∧
    (PV.Import.find_declaration [⟨"secret", 32, true⟩] [] (none, none) "secret"
      = (none, some "accessing to private symbol `secret`")) := by
  constructor
  · rfl
  · rfl

/-! ## Claim C6 -/

/-- C6 counterexample: re-building a node that is already built is not a
no-op.  A variadic native call that was already lowered (its `built` flag
set by `Node.build`) runs `_auto_cast_args` again when built a second
time: the two synthetic actuals are snapshotted as a new variadic tail,
the actuals list changes, and another array declaration statement is
inserted, so the tree after the second build differs from the tree after
the first. -/
theorem C6_rebuild_not_noop :
    (VL.auto_cast_args ⟨0, true, 7⟩ .EHLIT
        (VL.auto_cast_args ⟨0, true, 7⟩ .EHLIT [VL.ValNode.atom 0] "g1").args "g2").args
      ≠ (VL.auto_cast_args ⟨0, true, 7⟩ .EHLIT [VL.ValNode.atom 0] "g1").args ∧
    (VL.auto_cast_args ⟨0, true, 7⟩ .EHLIT
        (VL.auto_cast_args ⟨0, true, 7⟩ .EHLIT [VL.ValNode.atom 0] "g1").args "g2").inserted
      ≠ (VL.auto_cast_args ⟨0, true, 7⟩ .EHLIT [VL.ValNode.atom 0] "g1").inserted := by
  constructor
  · decide
  · decide

/-- C6 as amended: re-building is a no-op only where the code guards for
it.  `ContainerStructure.build` returns the node unchanged when its
`built` flag is already set, and the base `Node.build` (which only
re-assigns the parent edge and the `built` flag) is idempotent; but
re-building is not a no-op for every built node (see the counterexample on
lowered variadic calls). -/
theorem C6_guarded_rebuild_idempotent :
    (∀ (s : ID.CSState) (p : Nat), s.built = true →
      ID.ContainerStructure.build_model s p = s) ∧
    (∀ (n : ID.NodeState) (p : Nat),
      ID.Node.build_model (ID.Node.build_model n p) p = ID.Node.build_model n p) := by
  constructor
  · intro s p h
    simp [ID.ContainerStructure.build_model, h]
  · intro n p
    simp [ID.Node.build_model]

/-- Witness for C6 as amended, at a concrete already-built container
structure. -/
theorem C6_guarded_rebuild_idempotent_witness :
    ((⟨true, 0, true, true⟩ : ID.CSState).built = true) ∧
    ID.ContainerStructure.build_model ⟨true, 0, true, true⟩ 5 = ⟨true, 0, true, true⟩ :=
  ⟨rfl, C6_guarded_rebuild_idempotent.1 ⟨true, 0, true, true⟩ 5 rfl⟩

end Ehlit

namespace Ehlit

/-! ## FlowScope loop lemmas -/

theorem VL.insertAll_spec (cur : VL.Stmt) :
    ∀ (l : List VL.Stmt) (t : VL.FlowState),
      (VL.FlowScope.insertAll cur l t).body.length = t.body.length + l.length ∧
      (VL.FlowScope.insertAll cur l t).counter = t.counter + l.length := by
  intro l
  induction l with
  | nil => intro t; simp [VL.FlowScope.insertAll]
  | cons d ds ih =>
    intro t
    have hb : (VL.FlowScope.do_before_model t d cur).body.length = t.body.length + 1 :=
      List.length_insertIdx _ _ List.indexOf_le_length
    have hc : (VL.FlowScope.do_before_model t d cur).counter = t.counter + 1 := rfl
    obtain ⟨h3b, h3c⟩ := ih (VL.FlowScope.do_before_model t d cur)
    simp only [VL.FlowScope.insertAll]
    constructor
    · rw [h3b, hb, List.length_cons]; omega
    · rw [h3c, hc, List.length_cons]; omega

theorem VL.step_spec (eff : VL.Stmt → List VL.Stmt × VL.Stmt) (s : VL.FlowState) :
    ∃ k, (VL.FlowScope.step eff s).counter = s.counter + k + 1 ∧
      (VL.FlowScope.step eff s).body.length = s.body.length + k := by
  unfold VL.FlowScope.step
  cases hg : s.body[s.counter]? with
  | none => exact ⟨0, by simp⟩
  | some cur =>
    obtain ⟨ha, hb⟩ := VL.insertAll_spec cur (eff cur).1 s
    refine ⟨(eff cur).1.length, ?_, ?_⟩
    · simp [hb]
    · simp [List.length_set, ha]

theorem VL.build_model_mono_aux (eff : VL.Stmt → List VL.Stmt × VL.Stmt) :
    ∀ (n : Nat) (s : VL.FlowState), s.body.length - s.counter ≤ n →
      s.counter ≤ (VL.FlowScope.build_model eff s).counter := by
  intro n
  induction n with
  | zero =>
    intro s hs
    unfold VL.FlowScope.build_model
    split
    · omega
    · exact le_refl _
  | succ n ih =>
    intro s hs
    unfold VL.FlowScope.build_model
    split
    · rename_i h
      obtain ⟨k, hc, hb⟩ := VL.step_spec eff s
      have hm : (VL.FlowScope.step eff s).body.length - (VL.FlowScope.step eff s).counter ≤ n := by
        omega
      have := ih (VL.FlowScope.step eff s) hm
      omega
    · exact le_refl _

theorem VL.build_model_mono (eff : VL.Stmt → List VL.Stmt × VL.Stmt) (s : VL.FlowState) :
    s.counter ≤ (VL.FlowScope.build_model eff s).counter :=
  VL.build_model_mono_aux eff (s.body.length - s.counter) s (le_refl _)

/-! ## Claim C1 -/

/-- C1: for a call to a native (EHLIT) variadic function with `k` tail
actuals beyond the `fixedArity` declared parameters, `_auto_cast_args`
replaces the actuals with the fixed arguments plus exactly two synthetic
actuals — the count `k` and then an identifier naming the freshly
generated array — so the call ends with `fixedArity + 2` actuals, and
exactly one statement declaring an array of the variadic element type of
length `k` initialised from the snapshotted tail is handed to `do_before`,
which inserts it in the enclosing flow scope immediately before the
statement containing the call; a call to a C variadic function is passed
through unmodified. -/
theorem C1_variadic_lowering (typ : VL.FunctionTypeM) (args : List VL.ValNode)
    (genName : String) (k : Nat) (s : VL.FlowState) (cur : VL.Stmt)
    (hlen : args.length = typ.fixedArity + k)
    (hvar : typ.is_variadic = true)
    (hcur : s.body[s.counter]? = some cur)
    (hfirst : cur ∉ s.body.take s.counter) :
    ((VL.auto_cast_args typ .EHLIT args genName).args.length = typ.fixedArity + 2) ∧
    ((VL.auto_cast_args typ .EHLIT args genName).args
      = args.take typ.fixedArity
        ++ [.expression [.number (toString k)] false,
            .expression [.compoundIdentifier [genName]] false]) ∧
    ((VL.auto_cast_args typ .EHLIT args genName).inserted
      = some (.varDecl ⟨typ.variadic_type, some (.number (toString k)), genName,
          some (.expression [.initializationList (args.drop typ.fixedArity)] false)⟩)) ∧
    (∀ d, VL.FlowScope.do_before_model s d cur
      = ⟨s.body.take s.counter ++ d :: s.body.drop s.counter, s.counter + 1⟩) ∧
    (VL.auto_cast_args typ .C args genName = { args := args, inserted := none }) := by
  have hge : typ.fixedArity ≤ args.length := by omega
  have hmin : min args.length typ.fixedArity = typ.fixedArity := Nat.min_eq_right hge
  have hdlen : (args.drop typ.fixedArity).length = k := by
    rw [List.length_drop]
    omega
  have hc : s.counter < s.body.length := by
    rcases List.getElem?_eq_some.mp hcur with ⟨h, _⟩
    exact h
  have hidx : s.body.indexOf cur = s.counter :=
    indexOf_of_getElem? s.body s.counter cur hcur hfirst
  have hmain : VL.auto_cast_args typ .EHLIT args genName =
      { args := args.take typ.fixedArity
          ++ [.expression [.number (toString k)] false,
              .expression [.compoundIdentifier [genName]] false]
        inserted := some (.varDecl ⟨typ.variadic_type, some (.number (toString k)), genName,
          some (.expression [.initializationList (args.drop typ.fixedArity)] false)⟩) } := by
    simp [VL.auto_cast_args, hvar, hmin, hdlen]
  refine ⟨?_, ?_, ?_, ?_, ?_⟩
  · rw [hmain]
    simp only [List.length_append, List.length_take, List.length_cons, List.length_nil]
    omega
  · rw [hmain]
  · rw [hmain]
  · intro d
    simp only [VL.FlowScope.do_before_model, hidx]
    rw [insertIdx_eq_take_cons_drop s.counter s.body d (le_of_lt hc)]
  · simp [VL.auto_cast_args]

/-- Witness for C1 at a concrete call: fixed arity 1, three actuals
(tail length 2), current statement at index 1 of a two-statement body. -/
theorem C1_variadic_lowering_witness :
    ([VL.ValNode.atom 0, .atom 1, .atom 2].length = 1 + 2) ∧
    (VL.auto_cast_args ⟨1, true, 7⟩ .EHLIT [VL.ValNode.atom 0, .atom 1, .atom 2] "g").args.length
      = 1 + 2 :=
  ⟨by decide,
   (C1_variadic_lowering ⟨1, true, 7⟩ [VL.ValNode.atom 0, .atom 1, .atom 2] "g" 2
      ⟨[VL.Stmt.exprStmt 0, .exprStmt 1], 1⟩ (.exprStmt 1) rfl rfl rfl (by decide)).1⟩

/-! ## Claim C8 -/

/-- C8: the `FlowScope.build` statement index only ever increases, and a
`do_before` request on the statement currently being built inserts the new
statement exactly at the current index — before the current statement and
above every index the loop has already consumed, whose prefix is untouched
— and increments the counter, so the freshly inserted statement sits below
the new counter (it is skipped and never rebuilt) while the current
statement is the one the loop rebinds next. -/
theorem C8_flow_scope_order (eff : VL.Stmt → List VL.Stmt × VL.Stmt)
    (s : VL.FlowState) (d cur : VL.Stmt)
    (hcur : s.body[s.counter]? = some cur)
    (hfirst : cur ∉ s.body.take s.counter) :
    (∀ t : VL.FlowState, t.counter ≤ (VL.FlowScope.build_model eff t).counter) ∧
    (VL.FlowScope.do_before_model s d cur
      = ⟨s.body.take s.counter ++ d :: s.body.drop s.counter, s.counter + 1⟩) ∧
    ((VL.FlowScope.do_before_model s d cur).body.take s.counter = s.body.take s.counter) ∧
    ((VL.FlowScope.do_before_model s d cur).counter = s.counter + 1) ∧
    ((VL.FlowScope.do_before_model s d cur).body[s.counter]? = some d) ∧
    ((VL.FlowScope.do_before_model s d cur).body[s.counter + 1]? = some cur) := by
  have hc : s.counter < s.body.length := by
    rcases List.getElem?_eq_some.mp hcur with ⟨h, _⟩
    exact h
  have hidx : s.body.indexOf cur = s.counter :=
    indexOf_of_getElem? s.body s.counter cur hcur hfirst
  have hins : VL.FlowScope.do_before_model s d cur
      = ⟨s.body.take s.counter ++ d :: s.body.drop s.counter, s.counter + 1⟩ := by
    simp only [VL.FlowScope.do_before_model, hidx]
    rw [insertIdx_eq_take_cons_drop s.counter s.body d (le_of_lt hc)]
  obtain ⟨hget1, hget2⟩ := insert_getElem? s.body s.counter d (le_of_lt hc)
  refine ⟨VL.build_model_mono eff, hins, ?_, ?_, ?_, ?_⟩
  · rw [hins]
    have htl : (s.body.take s.counter).length = s.counter :=
      List.length_take_of_le (le_of_lt hc)
    calc ((s.body.take s.counter ++ d :: s.body.drop s.counter).take s.counter)
        = (s.body.take s.counter ++ d :: s.body.drop s.counter).take
            (s.body.take s.counter).length := by rw [htl]
      _ = s.body.take s.counter := List.take_left _ _
  · rw [hins]
  · rw [hins]
    exact hget1
  · rw [hins]
    rw [hget2]
    exact hcur

/-- Witness for C8 at a concrete two-statement flow scope with the build
cursor on the second statement. -/
theorem C8_flow_scope_order_witness :
    (([VL.Stmt.exprStmt 0, .exprStmt 1] : List VL.Stmt)[1]? = some (.exprStmt 1)) ∧
    VL.FlowScope.do_before_model ⟨[VL.Stmt.exprStmt 0, .exprStmt 1], 1⟩ (.exprStmt 5)
        (.exprStmt 1)
      = ⟨[VL.Stmt.exprStmt 0, .exprStmt 5, .exprStmt 1], 2⟩ :=
  ⟨rfl, by
    have h := (C8_flow_scope_order (fun st => ([], st))
      ⟨[VL.Stmt.exprStmt 0, .exprStmt 1], 1⟩ (.exprStmt 5) (.exprStmt 1) rfl (by decide)).2.1
    simpa using h⟩

end Ehlit

namespace Ehlit

/-! ## Failure counting lemmas -/

theorem ER.count_partition : ∀ (l : List ER.FailureM),
    (l.filter (fun f => ¬ f.severity = ER.Severity.Warning)).length
      + (l.filter (fun f => f.severity = ER.Severity.Warning)).length = l.length := by
  intro l
  induction l with
  | nil => rfl
  | cons x xs ih =>
    rw [List.filter_cons, List.filter_cons]
    by_cases h : x.severity = ER.Severity.Warning
    · have h1 : decide (¬ x.severity = ER.Severity.Warning) = false := by
        simp [h]
      have h2 : decide (x.severity = ER.Severity.Warning) = true := by
        simp [h]
      simp only [h1, h2, Bool.false_eq_true, if_false, if_true, List.length_cons]
      omega
    · have h1 : decide (¬ x.severity = ER.Severity.Warning) = true := by
        simp [h]
      have h2 : decide (x.severity = ER.Severity.Warning) = false := by
        simp [h]
      simp only [h1, h2, Bool.false_eq_true, if_false, if_true, List.length_cons]
      omega

theorem ER.errors_pos_iff : ∀ (l : List ER.FailureM),
    1 ≤ (l.filter (fun f => ¬ f.severity = ER.Severity.Warning)).length ↔
      ∃ f ∈ l, ¬ f.severity = ER.Severity.Warning := by
  intro l
  induction l with
  | nil => simp
  | cons x xs ih =>
    rw [List.filter_cons]
    by_cases h : x.severity = ER.Severity.Warning
    · have h1 : decide (¬ x.severity = ER.Severity.Warning) = false := by
        simp [h]
      simp only [h1, Bool.false_eq_true, if_false, List.mem_cons]
      constructor
      · intro hp
        obtain ⟨f, hf, hw⟩ := ih.mp hp
        exact ⟨f, Or.inr hf, hw⟩
      · rintro ⟨f, hf | hf, hw⟩
        · subst hf
          exact absurd h hw
        · exact ih.mpr ⟨f, hf, hw⟩
    · have h1 : decide (¬ x.severity = ER.Severity.Warning) = true := by
        simp [h]
      simp only [h1, if_true, List.length_cons, List.mem_cons]
      constructor
      · intro _
        exact ⟨x, Or.inl rfl, h⟩
      · intro _
        omega

/-! ## Claim C3 -/

/-- C3: the build pass over the top-level nodes runs to completion with all
failures accumulated; afterwards `build_ast` raises exactly one aggregate
diagnostic, carrying every accumulated failure with its `file:line:col:
message` rendering, iff at least one failure was recorded, and its
`errors` / `warnings` counters partition the failures (Warning counts as a
warning, anything else as an error).  The user-visible exit behaviour (a
build with at least one counted error is unsuccessful, warnings alone are
successful) is modelled from the spec because the command-line driver is
not part of the analysed sources. -/
theorem C3_aggregate_diagnostic (nodeFailures : List (List ER.FailureM))
    (ptl : Nat → Nat × Nat) :
    (ER.AST.build_ast_model nodeFailures ptl = Except.ok () ↔ nodeFailures.flatten = []) ∧
    (nodeFailures.flatten ≠ [] →
      ER.AST.build_ast_model nodeFailures ptl
        = Except.error (ER.ParseError.mkModel nodeFailures.flatten ptl)) ∧
    ((ER.ParseError.mkModel nodeFailures.flatten ptl).errors
        + (ER.ParseError.mkModel nodeFailures.flatten ptl).warnings
      = nodeFailures.flatten.length) ∧
    (∀ f ∈ (ER.ParseError.mkModel nodeFailures.flatten ptl).failures,
      ∃ lc, f.linecol = some lc ∧
        ER.FailureM.str f = some (f.file ++ ":" ++ toString lc.1 ++ ":"
          ++ toString lc.2 ++ ": " ++ f.msg)) ∧
    (ER.buildUnsuccessful (ER.AST.build_ast_model nodeFailures ptl) = true ↔
      ∃ f ∈ nodeFailures.flatten, ¬ f.severity = ER.Severity.Warning) ∧
    ((∀ f ∈ nodeFailures.flatten, f.severity = ER.Severity.Warning) →
      ER.buildUnsuccessful (ER.AST.build_ast_model nodeFailures ptl) = false) := by
  have hbuild : ER.AST.build_ast_model nodeFailures ptl
      = if nodeFailures.flatten.length ≠ 0 then
          Except.error (ER.ParseError.mkModel nodeFailures.flatten ptl)
        else Except.ok () := rfl
  have h5 : ER.buildUnsuccessful (ER.AST.build_ast_model nodeFailures ptl) = true ↔
      ∃ f ∈ nodeFailures.flatten, ¬ f.severity = ER.Severity.Warning := by
    rw [hbuild]
    by_cases hfs : nodeFailures.flatten = []
    · rw [if_neg (fun hne => hne (by rw [hfs]; rfl))]
      simp only [ER.buildUnsuccessful, Bool.false_eq_true, false_iff]
      rintro ⟨f, hf, _⟩
      rw [hfs] at hf
      cases hf
    · have hlen : nodeFailures.flatten.length ≠ 0 :=
        fun hz => hfs (List.length_eq_zero.mp hz)
      rw [if_pos hlen]
      simp only [ER.buildUnsuccessful, decide_eq_true_eq, ER.ParseError.mkModel]
      exact ER.errors_pos_iff nodeFailures.flatten
  refine ⟨?_, ?_, ?_, ?_, h5, ?_⟩
  · rw [hbuild]
    by_cases hfs : nodeFailures.flatten = []
    · rw [if_neg (fun hne => hne (by rw [hfs]; rfl))]
      simp [hfs]
    · have hlen : nodeFailures.flatten.length ≠ 0 :=
        fun hz => hfs (List.length_eq_zero.mp hz)
      rw [if_pos hlen]
      simp [hfs]
  · intro hfs
    have hlen : nodeFailures.flatten.length ≠ 0 :=
      fun hz => hfs (List.length_eq_zero.mp hz)
    rw [hbuild, if_pos hlen]
  · exact ER.count_partition nodeFailures.flatten
  · intro f hf
    simp only [ER.ParseError.mkModel, List.mem_map] at hf
    obtain ⟨g, hg, rfl⟩ := hf
    exact ⟨ptl g.pos, rfl, rfl⟩
  · intro hall
    rw [Bool.eq_false_iff]
    intro htrue
    obtain ⟨f, hf, hw⟩ := h5.mp htrue
    exact hw (hall f hf)

/-- Witness for C3 at a concrete single-error build. -/
theorem C3_aggregate_diagnostic_witness :
    (([[⟨ER.Severity.Error, 3, "boom", "f.eh", none⟩]] : List (List ER.FailureM)).flatten ≠ []) ∧
    ER.AST.build_ast_model [[⟨ER.Severity.Error, 3, "boom", "f.eh", none⟩]] (fun p => (p, p + 1))
      = Except.error (ER.ParseError.mkModel
          ([[⟨ER.Severity.Error, 3, "boom", "f.eh", none⟩]] : List (List ER.FailureM)).flatten
          (fun p => (p, p + 1))) :=
  ⟨by simp,
   (C3_aggregate_diagnostic [[⟨ER.Severity.Error, 3, "boom", "f.eh", none⟩]]
      (fun p => (p, p + 1))).2.1 (by simp)⟩

/-! ## Claim C7 -/

/-- C7: when the resolution of a compound-identifier element returns a null
declaration together with a null error, the loop records a null `decl` on
that element, reports exactly the diagnostic `use of undeclared identifier
X` at the element position, and returns at once with the remaining
elements untouched (no exception: the build pass continues); any later
read of `Identifier.typ` on the null declaration falls back to the builtin
`@any`. -/
theorem C7_undeclared_identifier (find : String → Option CI.DeclRef × Option String)
    (inner : CI.DeclRef → String → Option CI.DeclRef × Option String)
    (e : CI.IdentM) (rest : List CI.IdentM) :
    (find e.name = (none, none) →
      CI.fcdAux find inner none (e :: rest)
        = ({ e with decl := none } :: rest,
           [(e.pos, "use of undeclared identifier " ++ e.name)], true)) ∧
    (∀ c, inner c e.name = (none, none) →
      CI.fcdAux find inner (some c) (e :: rest)
        = ({ e with decl := none } :: rest,
           [(e.pos, "use of undeclared identifier " ++ e.name)], true)) ∧
    CI.Identifier.typ none = TypeM.builtin "@any" := by
  refine ⟨?_, ?_, rfl⟩
  · intro h
    simp [CI.fcdAux, h]
  · intro c h
    simp [CI.fcdAux, h]

/-- Witness for C7 at a concrete unresolved identifier `x`. -/
theorem C7_undeclared_identifier_witness :
    ((fun _ => ((none : Option CI.DeclRef), (none : Option String))) "x" = (none, none)) ∧
    CI.fcdAux (fun _ => (none, none)) (fun _ _ => (none, none)) none [⟨5, "x", none⟩]
      = ([⟨5, "x", none⟩], [(5, "use of undeclared identifier x")], true) :=
  ⟨rfl,
   (C7_undeclared_identifier (fun _ => (none, none)) (fun _ _ => (none, none))
      ⟨5, "x", none⟩ []).1 rfl⟩

/-! ## Import/include gating lemmas -/

theorem IG.runOps_spec (src hdr : String → List Nat) :
    ∀ (ops : List IG.ExtOp) (st : List String), st.Nodup →
      ((IG.runOps src hdr ops st).1.Nodup ∧ (IG.runOps src hdr ops st).2.Nodup ∧
        ∀ e ∈ (IG.runOps src hdr ops st).2, e ∉ st) := by
  intro ops
  induction ops with
  | nil =>
    intro st h
    simp [IG.runOps, h]
  | cons op ops ih =>
    intro st h
    have hstep : ∀ (p : String) (r : IG.ExtParse),
        (r.state = st ∧ r.parsed = []) ∨
          (p ∉ st ∧ r.state = st ++ [p] ∧ r.parsed = [p]) →
        ((IG.runOps src hdr ops r.state).1.Nodup ∧
          (r.parsed ++ (IG.runOps src hdr ops r.state).2).Nodup ∧
          ∀ e ∈ r.parsed ++ (IG.runOps src hdr ops r.state).2, e ∉ st) := by
      intro p r hr
      rcases hr with ⟨hs, hp⟩ | ⟨hnm, hs, hp⟩
      · rw [hs, hp]
        obtain ⟨h1, h2, h3⟩ := ih st h
        exact ⟨h1, by simpa using h2, by simpa using h3⟩
      · have hnodup : (st ++ [p]).Nodup := by
          refine List.Nodup.append h (List.nodup_singleton p) ?_
          intro x hx hx'
          simp only [List.mem_singleton] at hx'
          subst hx'
          exact hnm hx
        obtain ⟨h1, h2, h3⟩ := ih (st ++ [p]) hnodup
        rw [hs, hp]
        refine ⟨h1, ?_, ?_⟩
        · simp only [List.singleton_append, List.nodup_cons]
          refine ⟨?_, h2⟩
          intro hmem
          exact (h3 p hmem) (by simp)
        · intro e he
          simp only [List.singleton_append, List.mem_cons] at he
          rcases he with rfl | he
          · exact hnm
          · intro hest
            exact (h3 e he) (by simp [hest])
    cases op with
    | imp p =>
      by_cases hp : p ∈ st
      · have : IG.Import.parse_model src st p = ⟨st, [], []⟩ := by
          simp [IG.Import.parse_model, IG.importedOf, hp]
        simpa [IG.runOps, this] using hstep p ⟨st, [], []⟩ (Or.inl ⟨rfl, rfl⟩)
      · have : IG.Import.parse_model src st p = ⟨st ++ [p], [p], src p⟩ := by
          simp [IG.Import.parse_model, IG.importedOf, hp]
        simpa [IG.runOps, this] using
          hstep p ⟨st ++ [p], [p], src p⟩ (Or.inr ⟨hp, rfl, rfl⟩)
    | inc l =>
      by_cases hl : l ∈ st
      · have : IG.Include.parse_model hdr st l = ⟨st, [], []⟩ := by
          simp [IG.Include.parse_model, IG.includedOf, hl]
        simpa [IG.runOps, this] using hstep l ⟨st, [], []⟩ (Or.inl ⟨rfl, rfl⟩)
      · have : IG.Include.parse_model hdr st l = ⟨st ++ [l], [l], hdr l⟩ := by
          simp [IG.Include.parse_model, IG.includedOf, hl]
        simpa [IG.runOps, this] using
          hstep l ⟨st ++ [l], [l], hdr l⟩ (Or.inr ⟨hl, rfl, rfl⟩)

/-! ## Claim C9 -/

/-- C9: the shared `imported` / `included` collection is reset to empty at
the start of every `build_ast`; a path already recorded makes the import
or the include return at once without handing the file to an external
parser; and over any sequence of imports and includes in one build, the
recorded paths contain no duplicate and every external file is parsed at
most once. -/
theorem C9_parse_once :
    (IG.resetState = []) ∧
    (∀ (src : String → List Nat) (st : List String) (p : String),
      p ∈ IG.importedOf st → IG.Import.parse_model src st p = ⟨st, [], []⟩) ∧
    (∀ (hdr : String → List Nat) (st : List String) (l : String),
      l ∈ IG.includedOf st → IG.Include.parse_model hdr st l = ⟨st, [], []⟩) ∧
    (∀ (src hdr : String → List Nat) (ops : List IG.ExtOp),
      (IG.runOps src hdr ops IG.resetState).1.Nodup ∧
      (IG.runOps src hdr ops IG.resetState).2.Nodup) := by
  refine ⟨rfl, ?_, ?_, ?_⟩
  · intro src st p hp
    simp [IG.Import.parse_model, hp]
  · intro hdr st l hl
    simp [IG.Include.parse_model, hl]
  · intro src hdr ops
    obtain ⟨h1, h2, _⟩ := IG.runOps_spec src hdr ops IG.resetState List.nodup_nil
    exact ⟨h1, h2⟩

/-- Witness for C9 at an already-recorded path. -/
theorem C9_parse_once_witness :
    ("a" ∈ IG.importedOf ["a"]) ∧
    IG.Import.parse_model (fun _ => []) ["a"] "a" = ⟨["a"], [], []⟩ :=
  ⟨by simp [IG.importedOf],
   C9_parse_once.2.1 (fun _ => []) ["a"] "a" (by simp [IG.importedOf])⟩

/-! ## Claim C10 -/

/-- C10: after the `build_ast` reset, `imported` and `included` name one
and the same list, so a path recorded while resolving an import is also a
member of `included` and a lib recorded while resolving an include is also
a member of `imported`; in particular an `Include` whose lib equals a path
recorded by an import is skipped and contributes no declarations, and
symmetrically for an `Import` of a lib recorded by an include. -/
theorem C10_shared_collections (src hdr : String → List Nat) (st : List String)
    (p l : String) :
    (IG.importedOf st = IG.includedOf st) ∧
    (p ∈ IG.includedOf (IG.Import.parse_model src st p).state) ∧
    (IG.Include.parse_model hdr (IG.Import.parse_model src st p).state p
      = ⟨(IG.Import.parse_model src st p).state, [], []⟩) ∧
    (l ∈ IG.importedOf (IG.Include.parse_model hdr st l).state) ∧
    (IG.Import.parse_model src (IG.Include.parse_model hdr st l).state l
      = ⟨(IG.Include.parse_model hdr st l).state, [], []⟩) := by
  have himp : p ∈ (IG.Import.parse_model src st p).state := by
    by_cases hp : p ∈ st <;> simp [IG.Import.parse_model, IG.importedOf, hp]
  have hinc : l ∈ (IG.Include.parse_model hdr st l).state := by
    by_cases hl : l ∈ st <;> simp [IG.Include.parse_model, IG.includedOf, hl]
  refine ⟨rfl, himp, ?_, hinc, ?_⟩
  · simp [IG.Include.parse_model, IG.includedOf, himp]
  · simp [IG.Import.parse_model, IG.importedOf, hinc]

end Ehlit
